import Mathlib

/-!
# Yandex-Disk-Backup: a shallow embedding of `yadisk.go`

The program is a single Go file that archives directories with `7z`, uploads the
archives through the Yandex.Disk REST API, downloads the newest archive matching
a prefix, and reports to a Discord webhook.

Modelling conventions.

* Go strings are Lean `String`s (assumed to be valid text); `fmt.Sprintf` with
  `%s`, `%v` and `%d` is string concatenation, `%d` rendering a status code in
  decimal.
* Everything outside the process (the clock, the file system, the HTTP servers,
  the `7z` executable) is a field of `World`: a function from what the program
  sends to what it receives.
* Every effect the program performs is appended to the `trace` of the `State`;
  the `dirs` component records which directories exist.
* `os.Exit` (reached only through `fatalError`) ends the process at once and
  skips deferred calls; a run-time panic unwinds the stack and does run them.
  The three ways a function can end are the constructors of `Outcome`.
* Output to the terminal (`fmt.Println`, `fmt.Printf`) has no influence on the
  control flow and is left out of the trace; the text of a fatal error is kept
  in `Outcome.fatal`.
-/

namespace YaDisk

/-! ## Go standard library: `strings` and `path/filepath` (Unix) -/

/-- Go `strings.HasPrefix`: the string `s` begins with `pfx`, compared exactly. -/
def HasPrefix (s pfx : String) : Bool :=
  pfx.data.isPrefixOf s.data

/-- Go `os.IsPathSeparator` on Unix. -/
def isPathSeparator (c : Char) : Bool :=
  c == '/'

/-- The test `r == n || os.IsPathSeparator(path[r])` of `filepath.Clean`, on the
unread rest of the path. -/
def atEndOrSeparator : List Char → Bool
  | [] => true
  | c :: _ => isPathSeparator c

/-- The inner loop of the `..` case of `filepath.Clean`:
`for out.w > dotdot && !os.IsPathSeparator(out.index(out.w)) { out.w-- }`,
returning the final write index. -/
def backtrackTo (out : List Char) (dotdot : Nat) : Nat → Nat
  | 0 => 0
  | w + 1 =>
    if w + 1 > dotdot && !isPathSeparator (out.getD (w + 1) '/') then
      backtrackTo out dotdot w
    else
      w + 1

/-- The main loop `for r < n` of `filepath.Clean`. `rest` is `path[r:]`, `out` holds the
`out.w` bytes written so far, `dotdot` is the index where `..` must stop. Each
iteration consumes at least one byte, so `fuel = len(path)` iterations suffice. -/
def cleanLoop (rooted : Bool) : Nat → List Char → List Char → Nat → List Char
  | 0, _, out, _ => out
  | _ + 1, [], out, _ => out
  | fuel + 1, c :: tl, out, dotdot =>
    if isPathSeparator c then
      -- empty path element
      cleanLoop rooted fuel tl out dotdot
    else if c = '.' ∧ atEndOrSeparator tl then
      -- . element
      cleanLoop rooted fuel tl out dotdot
    else if c = '.' ∧ tl.head? = some '.' ∧ atEndOrSeparator tl.tail then
      -- .. element: remove to last separator
      if out.length > dotdot then
        cleanLoop rooted fuel tl.tail (out.take (backtrackTo out dotdot (out.length - 1))) dotdot
      else if !rooted then
        let out1 := (if out.length > 0 then out ++ ['/'] else out) ++ ['.', '.']
        cleanLoop rooted fuel tl.tail out1 out1.length
      else
        cleanLoop rooted fuel tl.tail out dotdot
    else
      -- real path element: add slash if needed, copy element
      let out1 := if (rooted && out.length != 1) || (!rooted && out.length != 0)
        then out ++ ['/'] else out
      cleanLoop rooted fuel ((c :: tl).dropWhile (fun x => !isPathSeparator x))
        (out1 ++ (c :: tl).takeWhile (fun x => !isPathSeparator x)) dotdot

/-- Go `filepath.Clean` on Unix (no volume name), on the characters of the path. -/
def cleanChars (path : List Char) : List Char :=
  match path with
  | [] => ['.']
  | c :: tl =>
    let rooted := isPathSeparator c
    let out :=
      if rooted then cleanLoop rooted (c :: tl).length tl ['/'] 1
      else cleanLoop rooted (c :: tl).length (c :: tl) [] 0
    if out.length = 0 then ['.'] else out

/-- Go `filepath.Join` on Unix: the elements from the first non-empty one on are joined
with `/` and cleaned; with no non-empty element the result is empty. -/
def joinChars : List (List Char) → List Char
  | [] => []
  | e :: rest =>
    if e ≠ [] then cleanChars (List.intercalate ['/'] (e :: rest)) else joinChars rest

/-- Go `filepath.Base` on Unix: strip trailing slashes, keep what follows the last
remaining slash; the empty path gives `.`, a path of slashes gives `/`. -/
def baseChars (path : List Char) : List Char :=
  if path = [] then ['.']
  else
    let stripped := (path.reverse.dropWhile isPathSeparator).reverse
    let last := (stripped.reverse.takeWhile (fun x => !isPathSeparator x)).reverse
    if last = [] then ['/'] else last

/-- Wrapper of `filepath.Clean` on strings. -/
def filepath.Clean (path : String) : String :=
  ⟨cleanChars path.data⟩

/-- Wrapper of `filepath.Join` on strings. -/
def filepath.Join (elem : List String) : String :=
  ⟨joinChars (elem.map String.data)⟩

/-- Wrapper of `filepath.Base` on strings. -/
def filepath.Base (path : String) : String :=
  ⟨baseChars path.data⟩

/-- An ordinary path element: non-empty, without `/`, and neither `.` nor `..`. -/
def plainElement (e : List Char) : Prop :=
  e ≠ [] ∧ '/' ∉ e ∧ e ≠ ['.'] ∧ e ≠ ['.', '.']

instance (e : List Char) : Decidable (plainElement e) := by
  unfold plainElement; infer_instance

/-- The characters of the absolute path `/e1/e2/.../ek` (empty for no element). -/
def absDirChars : List (List Char) → List Char
  | [] => []
  | e :: rest => '/' :: e ++ absDirChars rest

/-- The absolute path `/e1/e2/.../ek` as a string (empty for no element), so that the root
directory is `absDir [] ++ "/"`. -/
def absDir (segs : List String) : String :=
  ⟨absDirChars (segs.map String.data)⟩

/-! ## Data model -/

/-- The source's `LinkResponse`: the decoded body of a transfer-link reply. -/
structure LinkResponse where
  Href : String
deriving DecidableEq, Repr

/-- The source's `ResourceItem`. `Created` is a `time.Time`; only the order of instants
matters here, so it is an integer instant. `ItemType` is the field `Type` (a Lean keyword). -/
structure ResourceItem where
  Name : String
  Path : String
  Created : Int
  ItemType : String
deriving DecidableEq, Repr

/-- What the program does to the outside, in the order it does it. -/
inductive Event
  /-- `GET {base}/upload?path=<path>&overwrite=true` with the OAuth token. -/
  | getUploadLink (path token : String)
  /-- The status code of the reply to the upload handshake. -/
  | uploadLinkStatus (status : Nat)
  /-- `PUT <href>` with the content of the local file and its size. -/
  | putFile (href localPath : String) (contentLength : Nat)
  /-- The status code of the reply to the PUT. -/
  | putStatus (status : Nat)
  /-- `GET {base}?path=<path>&sort=-created&limit=100` with the OAuth token. -/
  | getListing (path token : String)
  /-- `GET {base}/download?path=<path>` with the OAuth token. -/
  | getDownloadLink (path token : String)
  /-- `GET <href>` without authorisation. -/
  | getFile (href : String)
  /-- `os.Create(name)` in the working directory. -/
  | createFile (name : String)
  /-- `io.Copy` of the downloaded body into the created file. -/
  | writeFile (name : String) (content : List Nat)
  /-- `http.Post` to the Discord webhook. -/
  | discordPost (url content username avatarUrl : String)
  /-- `os.MkdirAll(path, 0755)`. -/
  | mkdirAll (path : String)
  /-- `os.RemoveAll(path)`. -/
  | removeAll (path : String)
  /-- The call `copyFile(src, dst)`. -/
  | copyFile (src dst : String)
  /-- `exec.Command("7z", args...).Run()`. -/
  | run7z (args : List String)
deriving DecidableEq, Repr

/-- How a function of the program ends. -/
inductive Outcome (α : Type)
  /-- The function returned normally. -/
  | returned (a : α)
  /-- The function called `fatalError` with this message, which ended the process with
  `os.Exit(1)`: deferred calls of the callers are not run. -/
  | fatal (msg : String)
  /-- A run-time panic (nil dereference): deferred calls are run while unwinding. -/
  | panicked
deriving DecidableEq, Repr

/-- The state a run threads through: the effects so far and the directories that exist. -/
structure State where
  trace : List Event
  dirs : List String
deriving DecidableEq, Repr

/-- Append one effect to the trace. -/
def State.emit (s : State) (e : Event) : State :=
  { s with trace := s.trace ++ [e] }

/-- The effects performed between state `s` and a later state `t`. -/
def eventsSince (s t : State) : List Event :=
  t.trace.drop s.trace.length

/-- The outside of the process. An `Except String _` result is the Go pair `(value, err)`;
the string is the text of the error. -/
structure World where
  /-- The result of `time.Now().Format("20060102_150405")`. -/
  dateStr : String
  /-- The result of `os.UserHomeDir()` in `init`. -/
  homeDir : String
  /-- The result of `os.TempDir()`. -/
  tempDir : String
  /-- The result of `os.Open(path)` followed by `file.Stat()`: the size of the file. -/
  openFile : String → Except String Nat
  /-- The reply to the upload handshake for a destination path: status code and the result
  of decoding the body as a `LinkResponse`. -/
  uploadLink : String → Except String (Nat × Except String LinkResponse)
  /-- Whether `http.NewRequest("PUT", href, file)` accepts the address; otherwise it
  returns a nil request. -/
  validURL : String → Bool
  /-- The reply to the PUT to an address: its status code. -/
  putFile : String → Except String Nat
  /-- The reply to the listing query for a directory. -/
  listing : String → Except String (Nat × Except String (List ResourceItem))
  /-- The reply to the download handshake for a remote path (its status is not read). -/
  downloadLink : String → Except String (Except String LinkResponse)
  /-- The reply to the plain GET of a download address: the body. -/
  getFile : String → Except String (List Nat)
  /-- The result of `os.Create(name)`. -/
  createFile : String → Except String Unit
  /-- The result of `io.Copy` into the created file. -/
  writeFile : String → List Nat → Except String Unit
  /-- The result of `os.MkdirAll(path, 0755)`. -/
  mkdirAll : String → Except String Unit
  /-- The result of `copyFile(src, dst)`. -/
  copyFile : String → String → Except String Unit
  /-- The result of running `7z` with the given arguments. -/
  run7z : List String → Except String Unit

/-- The command-line flags read by `main`. -/
structure Args where
  mode : String
  token : String
  password : String
  file : String
  pfx : String
  remote : String
  webhook : String
deriving DecidableEq, Repr

/-! ## Constants and globals -/

def discordAvatarURL : String :=
  "https://raw.githubusercontent.com/google/material-design-icons/refs/heads/master/png/action/backup/materialicons/48dp/2x/baseline_backup_black_48dp.png"

def discordBotName : String := "Backup System"

def UfwRulesPath : String := "/etc/ufw/user.rules"

def RemoteBackupDir : String := "/backup/"

/-- Global `LocalBackupDir`, set in `init`. -/
def LocalBackupDir (w : World) : String := filepath.Join [w.homeDir, "backups"]

/-- Global `DockerPath`, set in `init`. -/
def DockerPath (w : World) : String := filepath.Join [w.homeDir, "docker"]

/-- Global `SillyPath`, set in `init`. -/
def SillyPath (w : World) : String := filepath.Join [w.homeDir, "docker", "sillytavern"]

/-! ## The program -/

/-- The source's `sendDiscord`; `webhook` is the global `discordWebhookURL`. A transport
error of the POST is only printed. -/
def sendDiscord (webhook message : String) (s : State) : State :=
  if webhook = "" then s
  else s.emit (.discordPost webhook message discordBotName discordAvatarURL)

/-- The source's `fatalError`, applied to the formatted message: notify, then `os.Exit(1)`. -/
def fatalError {α : Type} (webhook msg : String) (s : State) : Outcome α × State :=
  (.fatal msg, sendDiscord webhook ("❌ **Критическая ошибка:** " ++ msg) s)

/-- The destination path `uploadFile` computes:
`filepath.Join(remoteDir, filepath.Base(localPath))`. -/
def uploadDestPath (remoteDir localPath : String) : String :=
  filepath.Join [remoteDir, filepath.Base localPath]

/-- The source's `uploadFile`. -/
def uploadFile (w : World) (webhook token localPath remoteDir : String) (s : State) :
    Outcome Unit × State :=
  match w.openFile localPath with
  | .error err => fatalError webhook ("Не удалось открыть файл: " ++ err) s
  | .ok size =>
    let fileName := filepath.Base localPath
    let destPath := filepath.Join [remoteDir, fileName]
    let s := s.emit (.getUploadLink destPath token)
    match w.uploadLink destPath with
    | .error err => fatalError webhook ("Ошибка соединения: " ++ err) s
    | .ok (status, body) =>
      let s := s.emit (.uploadLinkStatus status)
      if status ≠ 200 then
        fatalError webhook
          ("Ошибка получения URL загрузки (Code: " ++ toString status ++ ") для " ++ fileName) s
      else
        match body with
        | .error err => fatalError webhook ("Ошибка JSON: " ++ err) s
        | .ok link =>
          if !w.validURL link.Href then
            -- `putReq` is nil and `putReq.ContentLength = ...` dereferences it
            (.panicked, s)
          else
            let s := s.emit (.putFile link.Href localPath size)
            match w.putFile link.Href with
            | .error err => fatalError webhook ("Сбой передачи: " ++ err) s
            | .ok putStatus =>
              let s := s.emit (.putStatus putStatus)
              if putStatus ≠ 201 ∧ putStatus ≠ 200 then
                fatalError webhook ("Файл не принят, код: " ++ toString putStatus) s
              else
                (.returned (), s)

/-- The loop of `downloadNewest` over `list.Embedded.Items`: the values of `targetFile`
and `targetName` when the loop ends. Both start as the empty string; the first item that
passes the test sets them and breaks out of the loop. -/
def scanItems (pfx : String) : List ResourceItem → String × String
  | [] => ("", "")
  | item :: rest =>
    if item.ItemType = "file" && HasPrefix item.Name pfx then (item.Path, item.Name)
    else scanItems pfx rest

/-- The source's `downloadNewest`. -/
def downloadNewest (w : World) (webhook token pfx remoteDir : String) (s : State) :
    Outcome Unit × State :=
  let s := s.emit (.getListing remoteDir token)
  match w.listing remoteDir with
  | .error err => fatalError webhook ("Ошибка списка: " ++ err) s
  | .ok (status, body) =>
    if status ≠ 200 then
      fatalError webhook ("Ошибка API (Code: " ++ toString status ++ ")") s
    else
      match body with
      | .error err => fatalError webhook ("Ошибка JSON списка: " ++ err) s
      | .ok items =>
        let targetFile := (scanItems pfx items).1
        if targetFile = "" then
          fatalError webhook ("Файл '" ++ pfx ++ "' не найден") s
        else
          let s := s.emit (.getDownloadLink targetFile token)
          match w.downloadLink targetFile with
          | .error err => fatalError webhook ("Ошибка запроса ссылки: " ++ err) s
          | .ok (.error _) => fatalError webhook "Ошибка ссылки JSON" s
          | .ok (.ok link) =>
            let s := s.emit (.getFile link.Href)
            match w.getFile link.Href with
            | .error err => fatalError webhook ("Ошибка скачивания: " ++ err) s
            | .ok content =>
              let outFileName := filepath.Base targetFile
              let s := s.emit (.createFile outFileName)
              match w.createFile outFileName with
              | .error err => fatalError webhook ("Ошибка создания файла: " ++ err) s
              | .ok _ =>
                let s := s.emit (.writeFile outFileName content)
                match w.writeFile outFileName content with
                | .error err => fatalError webhook ("Ошибка записи: " ++ err) s
                | .ok _ => (.returned (), s)

/-- Go `defer`: the deferred call runs when the body returns or panics, and does not run
when the body ends the process with `os.Exit`. -/
def withDefer {α : Type} (deferred : State → State) (body : State → Outcome α × State)
    (s : State) : Outcome α × State :=
  match body s with
  | (.returned a, t) => (.returned a, deferred t)
  | (.panicked, t) => (.panicked, deferred t)
  | (.fatal msg, t) => (.fatal msg, t)

/-- Sequencing of two calls: the second runs only if the first returned. -/
def andThen {α : Type} (r : Outcome Unit × State) (next : State → Outcome α × State) :
    Outcome α × State :=
  match r with
  | (.returned _, t) => next t
  | (.fatal msg, t) => (.fatal msg, t)
  | (.panicked, t) => (.panicked, t)

/-- The effect of a successful `os.MkdirAll(path)` on the directories. -/
def State.mkdir (s : State) (path : String) : State :=
  { s with dirs := if path ∈ s.dirs then s.dirs else path :: s.dirs }

/-- The effect of `os.RemoveAll(path)`: the directory is gone afterwards. -/
def State.rmdir (s : State) (path : String) : State :=
  { trace := s.trace ++ [.removeAll path], dirs := s.dirs.filter (fun d => d ≠ path) }

/-- The name of the main archive of a run. -/
def mainArchiveName (dateStr : String) : String := "backup_main-" ++ dateStr ++ ".7z"

/-- The name of the secondary archive of a run. -/
def sillyArchiveName (dateStr : String) : String := "backup_silly-" ++ dateStr ++ ".7z"

/-- The scratch directory of `runFullBackup`. -/
def tmpDir (w : World) : String := filepath.Join [w.tempDir, "backup_work"]

/-- The part of `runFullBackup` after `defer os.RemoveAll(tmpDir)`. -/
def runFullBackupBody (w : World) (webhook token password : String) (s : State) :
    Outcome Unit × State :=
  let mainArchivePath := filepath.Join [LocalBackupDir w, mainArchiveName w.dateStr]
  let sillyArchivePath := filepath.Join [LocalBackupDir w, sillyArchiveName w.dateStr]
  let tmpUfwPath := filepath.Join [tmpDir w, "user.rules"]
  let s := s.emit (.copyFile UfwRulesPath tmpUfwPath)
  let s :=
    match w.copyFile UfwRulesPath tmpUfwPath with
    | .error _ => s.emit (.createFile tmpUfwPath)
    | .ok _ => s
  let argsMain := ["a", "-m0=lzma2", "-mx=9", "-p" ++ password, "-mhe=on",
    "-xr!docker/sillytavern", mainArchivePath, DockerPath w, tmpUfwPath]
  let s := s.emit (.run7z argsMain)
  match w.run7z argsMain with
  | .error err => fatalError webhook ("Ошибка создания Main архива: " ++ err) s
  | .ok _ =>
    let argsSilly := ["a", "-m0=lzma2", "-mx=9", "-p" ++ password, "-mhe=on",
      sillyArchivePath, SillyPath w]
    let s := s.emit (.run7z argsSilly)
    match w.run7z argsSilly with
    | .error err => fatalError webhook ("Ошибка создания Silly архива: " ++ err) s
    | .ok _ =>
      andThen (uploadFile w webhook token mainArchivePath RemoteBackupDir s) fun s =>
      andThen (uploadFile w webhook token sillyArchivePath RemoteBackupDir s) fun s =>
      (.returned (), sendDiscord webhook
        ("✅ **Полный цикл бекапа завершен!**\nFiles:\n`" ++ mainArchiveName w.dateStr
          ++ "`\n`" ++ sillyArchiveName w.dateStr ++ "`") s)

/-- The source's `runFullBackup`. -/
def runFullBackup (w : World) (webhook token password : String) (s : State) :
    Outcome Unit × State :=
  let s := s.emit (.mkdirAll (LocalBackupDir w))
  match w.mkdirAll (LocalBackupDir w) with
  | .error err =>
    fatalError webhook
      ("Не удалось создать папку бекапов " ++ LocalBackupDir w ++ ": " ++ err) s
  | .ok _ =>
    let s := s.mkdir (LocalBackupDir w)
    let s := s.emit (.mkdirAll (tmpDir w))
    let s :=
      match w.mkdirAll (tmpDir w) with
      | .error _ => s
      | .ok _ => s.mkdir (tmpDir w)
    withDefer (fun t => t.rmdir (tmpDir w)) (runFullBackupBody w webhook token password) s

/-- The source's `main`, after `flag.Parse()`; the flag `-webhook` is the global
`discordWebhookURL`. -/
def main (w : World) (a : Args) (s : State) : Outcome Unit × State :=
  andThen (if a.token = "" then fatalError a.webhook "Не указан токен (-token)" s
    else (.returned (), s)) fun s =>
  if a.mode = "upload" then
    let targetRemote := if a.remote = "" then "/" else a.remote
    andThen (if a.file = "" then fatalError a.webhook "Не указан файл (-file)" s
      else (.returned (), s)) fun s =>
    uploadFile w a.webhook a.token a.file targetRemote s
  else if a.mode = "download" then
    let targetRemote := if a.remote = "" then "/" else a.remote
    andThen (if a.pfx = "" then fatalError a.webhook "Не указан префикс (-prefix)" s
      else (.returned (), s)) fun s =>
    downloadNewest w a.webhook a.token a.pfx targetRemote s
  else if a.mode = "backup" then
    andThen (if a.password = "" then
        fatalError a.webhook "Не указан пароль для архивации (-password)" s
      else (.returned (), s)) fun s =>
    runFullBackup w a.webhook a.token a.password s
  else
    fatalError a.webhook
      "Неверный режим. Используйте -mode=backup, -mode=upload или -mode=download" s

/-- The event is a request for a download link. -/
def Event.isDownloadLinkRequest : Event → Bool
  | .getDownloadLink _ _ => true
  | _ => false

/-- The event fetches a download address or creates or writes a local file. -/
def Event.isLocalDownload : Event → Bool
  | .getFile _ => true
  | .createFile _ => true
  | .writeFile _ _ => true
  | _ => false

/-- The event is a POST to the Discord webhook. -/
def Event.isDiscordPost : Event → Bool
  | .discordPost _ _ _ _ => true
  | _ => false

/-! ## Concrete scenarios -/

/-- A state with no effect performed and no directory recorded. -/
def State.start : State := { trace := [], dirs := [] }

/-- A world in which every call to the outside fails. -/
def deadWorld : World where
  dateStr := "20240102_030405"
  homeDir := "/home/u"
  tempDir := "/tmp"
  openFile := fun _ => .error "no such file"
  uploadLink := fun _ => .error "no route"
  validURL := fun _ => true
  putFile := fun _ => .error "no route"
  listing := fun _ => .error "no route"
  downloadLink := fun _ => .error "no route"
  getFile := fun _ => .error "no route"
  createFile := fun _ => .error "read-only"
  writeFile := fun _ _ => .error "read-only"
  mkdirAll := fun _ => .error "read-only"
  copyFile := fun _ _ => .error "read-only"
  run7z := fun _ => .error "exit status 2"

/-- A world whose server lists the given items for every directory and would serve every
download. -/
def listingWorld (items : List ResourceItem) : World :=
  { deadWorld with
    listing := fun _ => .ok (200, .ok items)
    downloadLink := fun _ => .ok (.ok { Href := "https://dl.example/f" })
    getFile := fun _ => .ok [1, 2, 3]
    createFile := fun _ => .ok ()
    writeFile := fun _ _ => .ok () }

/-- The listing of the example: two main archives, the newer one first. -/
def exampleListing : List ResourceItem :=
  [ { Name := "backup_main-20240102_0000.7z", Path := "disk:/backup/backup_main-20240102_0000.7z",
      Created := 1704153600, ItemType := "file" },
    { Name := "backup_main-20240101_0000.7z", Path := "disk:/backup/backup_main-20240101_0000.7z",
      Created := 1704067200, ItemType := "file" } ]

/-- A listing whose only entry with the sought name is a directory. -/
def dirOnlyListing : List ResourceItem :=
  [ { Name := "backup_main", Path := "disk:/backup/backup_main", Created := 1704153600,
      ItemType := "dir" },
    { Name := "notes.txt", Path := "disk:/backup/notes.txt", Created := 1704067200,
      ItemType := "file" } ]

/-- A listing whose first matching file was decoded with an empty `path`, followed by a
matching file with a proper path. -/
def emptyPathListing : List ResourceItem :=
  [ { Name := "backup_main-20240102_0000.7z", Path := "", Created := 1704153600,
      ItemType := "file" },
    { Name := "backup_main-20240101_0000.7z", Path := "disk:/backup/backup_main-20240101_0000.7z",
      Created := 1704067200, ItemType := "file" } ]

/-- A world in which the local file opens (5 bytes), the upload handshake answers with
the given status and a decodable link, and the PUT answers with the given status. -/
def uploadWorld (handshakeStatus putStatus : Nat) : World :=
  { deadWorld with
    openFile := fun _ => .ok 5
    uploadLink := fun _ => .ok (handshakeStatus, .ok { Href := "https://up.example/u" })
    putFile := fun _ => .ok putStatus }

/-- A world in which the directories can be made and the set-up succeeds, and `7z` fails. -/
def archiveFailWorld : World :=
  { deadWorld with
    mkdirAll := fun _ => .ok ()
    copyFile := fun _ _ => .ok () }

/-- A world in which every step of a backup succeeds. -/
def backupWorld : World :=
  { uploadWorld 200 201 with
    mkdirAll := fun _ => .ok ()
    copyFile := fun _ _ => .ok ()
    run7z := fun _ => .ok () }

/-- Between the states `s` and `t` effects were only added, none of them a POST to the
webhook. -/
def quietSince (s t : State) : Prop :=
  s.trace <+: t.trace ∧ ∀ e ∈ eventsSince s t, e.isDiscordPost = false

/-! ## `filepath.Clean`, `filepath.Join` and `filepath.Base` on ordinary paths -/

/-- The embedding of `path/filepath` agrees with the documented behaviour of the library on
sample paths: repeated separators, `.` and `..` elements, rooted and unrooted paths. -/
theorem filepath_samples :
    filepath.Clean "" = "." ∧
    filepath.Clean "/../a" = "/a" ∧
    filepath.Clean "a/.." = "." ∧
    filepath.Clean "a/b/../../.." = ".." ∧
    filepath.Clean "../../a/b/../.." = "../.." ∧
    filepath.Clean "/a/../b/./c//" = "/b/c" ∧
    filepath.Join ["/", "x.txt"] = "/x.txt" ∧
    filepath.Join ["/d/", "x.txt"] = "/d/x.txt" ∧
    filepath.Join ["/d", "x.txt"] = "/d/x.txt" ∧
    filepath.Join ["", "x.txt"] = "x.txt" ∧
    filepath.Join ["/home/u", "docker", "sillytavern"] = "/home/u/docker/sillytavern" ∧
    filepath.Base "/home/u/backups/x.7z" = "x.7z" ∧
    filepath.Base "a/b/" = "b" ∧
    filepath.Base "" = "." ∧
    filepath.Base "///" = "/" := by
  refine ⟨?_, ?_, ?_, ?_, ?_, ?_, ?_, ?_, ?_, ?_, ?_, ?_, ?_, ?_, ?_⟩ <;> decide

/-- The prefix test of `strings.HasPrefix` is exact: a different letter case is no match. -/
theorem HasPrefix_samples :
    HasPrefix "backup_main-20240102_0000.7z" "backup_main" = true ∧
    HasPrefix "Backup_main-20240102_0000.7z" "backup_main" = false ∧
    HasPrefix "backup" "backup_main" = false ∧
    HasPrefix "anything" "" = true := by
  refine ⟨?_, ?_, ?_, ?_⟩ <;> decide


theorem cleanLoop_sep (r : Bool) (fuel : Nat) (tl out : List Char) (dd : Nat) :
    cleanLoop r (fuel + 1) ('/' :: tl) out dd = cleanLoop r fuel tl out dd := by
  simp [cleanLoop, isPathSeparator]

theorem cleanLoop_nil (r : Bool) (fuel : Nat) (out : List Char) (dd : Nat) :
    cleanLoop r fuel [] out dd = out := by
  cases fuel <;> simp [cleanLoop]

theorem takeWhile_element (e rest : List Char) (he : '/' ∉ e)
    (hrest : atEndOrSeparator rest = true) :
    (e ++ rest).takeWhile (fun x => !isPathSeparator x) = e ∧
    (e ++ rest).dropWhile (fun x => !isPathSeparator x) = rest := by
  have hall : ∀ a ∈ e, (fun x => !isPathSeparator x) a = true := by
    intro a ha
    have : a ≠ '/' := fun h => he (h ▸ ha)
    simp [isPathSeparator, this]
  rw [List.takeWhile_append_of_pos hall, List.dropWhile_append_of_pos hall]
  cases rest with
  | nil => simp
  | cons c tl =>
    have hc : isPathSeparator c = true := hrest
    simp [List.takeWhile, List.dropWhile, hc]

theorem cleanLoop_element (fuel : Nat) (e rest out : List Char) (dd : Nat)
    (he : plainElement e) (hrest : atEndOrSeparator rest = true) :
    cleanLoop true (fuel + 1) (e ++ rest) out dd =
      cleanLoop true fuel rest ((if out.length != 1 then out ++ ['/'] else out) ++ e) dd := by
  obtain ⟨hne, hslash, hdot, hdotdot⟩ := he
  obtain ⟨htw, hdw⟩ := takeWhile_element e rest hslash hrest
  cases e with
  | nil => exact absurd rfl hne
  | cons c tl =>
    have hc : isPathSeparator c = false := by
      have : c ≠ '/' := fun h => hslash (h ▸ List.mem_cons_self _ _)
      simp [isPathSeparator, this]
    have h2 : ¬ (c = '.' ∧ atEndOrSeparator (tl ++ rest) = true) := by
      rintro ⟨rfl, h⟩
      cases tl with
      | nil => exact hdot rfl
      | cons c2 tl2 =>
        have : c2 ≠ '/' := fun h => hslash (h ▸ by simp)
        simp [atEndOrSeparator, isPathSeparator, this] at h
    have h3 : ¬ (c = '.' ∧ (tl ++ rest).head? = some '.' ∧
        atEndOrSeparator (tl ++ rest).tail = true) := by
      rintro ⟨rfl, hh, h⟩
      cases tl with
      | nil => exact hdot rfl
      | cons c2 tl2 =>
        simp at hh
        subst hh
        cases tl2 with
        | nil => exact hdotdot rfl
        | cons c3 tl3 =>
          have : c3 ≠ '/' := fun h => hslash (h ▸ by simp)
          simp [atEndOrSeparator, isPathSeparator, this] at h
    rw [List.cons_append, cleanLoop]
    rw [if_neg (by simp [hc]), if_neg h2, if_neg h3]
    rw [← List.cons_append, htw, hdw]
    simp


theorem absDirChars_append (a b : List (List Char)) :
    absDirChars (a ++ b) = absDirChars a ++ absDirChars b := by
  induction a with
  | nil => rfl
  | cons e rest ih => simp [absDirChars, ih]

theorem atEndOrSeparator_absDirChars (segs : List (List Char)) (tail : List Char)
    (htail : atEndOrSeparator tail = true) :
    atEndOrSeparator (absDirChars segs ++ tail) = true := by
  cases segs with
  | nil => exact htail
  | cons e rest => simp [absDirChars, atEndOrSeparator, isPathSeparator]

/-- The output buffer of the loop after the elements `done` of a rooted path. -/
theorem cleanLoop_append_element (done : List (List Char)) (e : List Char)
    (hdone : ∀ d ∈ done, plainElement d) :
    (if ('/' :: (absDirChars done).tail).length != 1
      then '/' :: (absDirChars done).tail ++ ['/'] else '/' :: (absDirChars done).tail) ++ e
      = '/' :: (absDirChars (done ++ [e])).tail := by
  cases done with
  | nil => simp [absDirChars]
  | cons d rest =>
    have hd := (hdone d (List.mem_cons_self _ _)).1
    cases d with
    | nil => exact absurd rfl hd
    | cons c tl => simp [absDirChars, absDirChars_append]

theorem cleanLoop_elements (segs : List (List Char)) :
    ∀ (done : List (List Char)) (tail : List Char) (fuel dd : Nat),
      (∀ d ∈ done, plainElement d) → (∀ e ∈ segs, plainElement e) →
      atEndOrSeparator tail = true → (absDirChars segs ++ tail).length ≤ fuel →
      ∃ fuel2, tail.length ≤ fuel2 ∧
        cleanLoop true fuel (absDirChars segs ++ tail) ('/' :: (absDirChars done).tail) dd =
          cleanLoop true fuel2 tail ('/' :: (absDirChars (done ++ segs)).tail) dd := by
  induction segs with
  | nil =>
    intro done tail fuel dd _ _ _ hfuel
    exact ⟨fuel, by simpa [absDirChars] using hfuel, by simp [absDirChars]⟩
  | cons e rest ih =>
    intro done tail fuel dd hdone hsegs htail hfuel
    have he := hsegs e (List.mem_cons_self _ _)
    have hrest : ∀ x ∈ rest, plainElement x := fun x hx => hsegs x (List.mem_cons_of_mem _ hx)
    have hlen : 1 ≤ e.length := by
      cases e with
      | nil => exact absurd rfl he.1
      | cons c tl => simp
    simp only [absDirChars, List.cons_append, List.append_assoc, List.length_cons,
      List.length_append] at hfuel
    obtain ⟨f, rfl⟩ : ∃ f, fuel = f + 2 := ⟨fuel - 2, by omega⟩
    have hdone2 : ∀ d ∈ done ++ [e], plainElement d := by
      intro d hd
      rcases List.mem_append.mp hd with h | h
      · exact hdone d h
      · rw [List.mem_singleton.mp h]; exact he
    obtain ⟨fuel2, hf2, heq⟩ := ih (done ++ [e]) tail f dd hdone2 hrest htail
      (by simp only [List.length_append]; omega)
    refine ⟨fuel2, hf2, ?_⟩
    simp only [absDirChars, List.cons_append, List.append_assoc]
    rw [cleanLoop_sep, cleanLoop_element f e _ _ dd he
      (atEndOrSeparator_absDirChars rest tail htail), cleanLoop_append_element done e hdone,
      heq, List.append_assoc, List.singleton_append]

theorem absDirChars_cons_tail (segs : List (List Char)) (h : segs ≠ []) :
    '/' :: (absDirChars segs).tail = absDirChars segs := by
  cases segs with
  | nil => exact absurd rfl h
  | cons e rest => simp [absDirChars]

/-- The loop on the rest `slashes ++ /name` of a rooted path: the name is appended. -/
theorem cleanLoop_tail_name (segs : List (List Char)) (name slashes : List Char)
    (fuel dd : Nat) (hsegs : ∀ e ∈ segs, plainElement e) (hname : plainElement name)
    (hsl : slashes = [] ∨ slashes = ['/']) (hfuel : (slashes ++ '/' :: name).length ≤ fuel) :
    cleanLoop true fuel (slashes ++ '/' :: name) ('/' :: (absDirChars segs).tail) dd
      = absDirChars segs ++ '/' :: name := by
  have hlen : 1 ≤ name.length := by
    cases name with
    | nil => exact absurd rfl hname.1
    | cons c tl => simp
  have hfinal : ∀ f, cleanLoop true (f + 2) ('/' :: name) ('/' :: (absDirChars segs).tail) dd
      = absDirChars segs ++ '/' :: name := by
    intro f
    have h := cleanLoop_element f name [] ('/' :: (absDirChars segs).tail) dd hname rfl
    rw [List.append_nil] at h
    rw [cleanLoop_sep, h, cleanLoop_nil, cleanLoop_append_element segs name hsegs,
      absDirChars_cons_tail _ (by simp), absDirChars_append]
    simp [absDirChars]
  rcases hsl with rfl | rfl
  · simp only [List.nil_append, List.length_cons] at hfuel ⊢
    obtain ⟨f, rfl⟩ : ∃ f, fuel = f + 2 := ⟨fuel - 2, by omega⟩
    exact hfinal f
  · simp only [List.singleton_append, List.length_cons] at hfuel ⊢
    obtain ⟨f, rfl⟩ : ∃ f, fuel = f + 2 + 1 := ⟨fuel - 3, by omega⟩
    rw [cleanLoop_sep]
    exact hfinal f

/-- Cleaning `/e1/.../ek`, optionally followed by a slash, then `/name`. -/
theorem cleanChars_dir_name (segs : List (List Char)) (name slashes : List Char)
    (hsegs : ∀ e ∈ segs, plainElement e) (hname : plainElement name)
    (hsl : slashes = [] ∨ slashes = ['/']) :
    cleanChars (absDirChars segs ++ (slashes ++ '/' :: name))
      = absDirChars segs ++ '/' :: name := by
  have hhead : ∃ tl, absDirChars segs ++ (slashes ++ '/' :: name) = '/' :: tl := by
    cases segs with
    | nil => rcases hsl with rfl | rfl <;> simp [absDirChars]
    | cons e rest => simp [absDirChars]
  obtain ⟨tl, htl⟩ := hhead
  have hloop : cleanLoop true (tl.length + 1) tl ['/'] 1 = absDirChars segs ++ '/' :: name := by
    rw [← cleanLoop_sep true (tl.length + 1) tl ['/'] 1, ← htl]
    obtain ⟨fuel2, hf2, heq⟩ := cleanLoop_elements segs [] (slashes ++ '/' :: name)
      (tl.length + 1 + 1) 1 (fun d hd => absurd hd (List.not_mem_nil d)) hsegs
      (by rcases hsl with rfl | rfl <;> rfl)
      (by rw [htl]; simp)
    have h0 : ('/' :: (absDirChars []).tail) = ['/'] := rfl
    rw [h0, List.nil_append] at heq
    rw [heq]
    exact cleanLoop_tail_name segs name slashes fuel2 1 hsegs hname hsl hf2
  rw [htl]
  have hne : (absDirChars segs ++ '/' :: name).length ≠ 0 := by simp
  simp only [cleanChars, isPathSeparator, beq_self_eq_true, if_true, List.length_cons, hloop,
    if_neg hne]

/-- The result of `filepath.Join(dir, name)` for `dir = /e1/.../ek` with or without a trailing slash. -/
theorem joinChars_dir_name (segs : List (List Char)) (name slashes : List Char)
    (hsegs : ∀ e ∈ segs, plainElement e) (hname : plainElement name)
    (hsl : slashes = [] ∨ slashes = ['/']) (hne : absDirChars segs ++ slashes ≠ []) :
    joinChars [absDirChars segs ++ slashes, name] = absDirChars segs ++ '/' :: name := by
  have h := cleanChars_dir_name segs name slashes hsegs hname hsl
  simp only [joinChars, if_pos hne]
  simpa [List.intercalate, List.intersperse] using h

/-- The result of `filepath.Base` is never empty and holds a slash only when it is `/`. -/
theorem baseChars_plain (path : List Char) (h1 : baseChars path ≠ ['.'])
    (h2 : baseChars path ≠ ['.', '.']) (h3 : baseChars path ≠ ['/']) :
    plainElement (baseChars path) := by
  by_cases hp : path = []
  · subst hp; exact absurd rfl h1
  · by_cases hl : (((path.reverse.dropWhile isPathSeparator).reverse).reverse.takeWhile
        (fun x => !isPathSeparator x)).reverse = []
    · have hb : baseChars path = ['/'] := by
        unfold baseChars
        rw [if_neg hp]
        exact if_pos hl
      exact absurd hb h3
    · have hb : baseChars path = (((path.reverse.dropWhile isPathSeparator).reverse).reverse.takeWhile
          (fun x => !isPathSeparator x)).reverse := by
        unfold baseChars
        rw [if_neg hp]
        exact if_neg hl
      refine ⟨hb ▸ hl, ?_, h1, h2⟩
      rw [hb]
      intro hmem
      have := List.mem_takeWhile_imp (List.mem_reverse.mp hmem)
      simp [isPathSeparator] at this

/-! ## The listing scan of `downloadNewest` -/

/-- The test of the loop of `downloadNewest` holds exactly when the type is `file` and the
characters of the prefix are an initial segment of the characters of the name. -/
theorem scan_test_iff (pfx : String) (x : ResourceItem) :
    (x.ItemType = "file" && HasPrefix x.Name pfx) = true ↔
      (x.ItemType = "file" ∧ pfx.data <+: x.Name.data) := by
  simp [HasPrefix, List.isPrefixOf_iff_prefix]

/-- With no item passing the test, the loop leaves both variables empty. -/
theorem scanItems_no_match (pfx : String) (items : List ResourceItem)
    (h : ∀ x ∈ items, ¬ (x.ItemType = "file" ∧ pfx.data <+: x.Name.data)) :
    scanItems pfx items = ("", "") := by
  induction items with
  | nil => rfl
  | cons a rest ih =>
    have ha : ¬ ((a.ItemType = "file" && HasPrefix a.Name pfx) = true) := by
      rw [scan_test_iff]; exact h a (List.mem_cons_self _ _)
    have hrest := ih (fun x hx => h x (List.mem_cons_of_mem _ hx))
    simp only [scanItems, if_neg ha, hrest]

/-- The loop stops at the first item passing the test, whatever follows it. -/
theorem scanItems_first_match (pfx : String) (pre post : List ResourceItem)
    (sel : ResourceItem)
    (hpre : ∀ x ∈ pre, ¬ (x.ItemType = "file" ∧ pfx.data <+: x.Name.data))
    (hsel : sel.ItemType = "file" ∧ pfx.data <+: sel.Name.data) :
    scanItems pfx (pre ++ sel :: post) = (sel.Path, sel.Name) := by
  induction pre with
  | nil =>
    have hs : (sel.ItemType = "file" && HasPrefix sel.Name pfx) = true := by
      rw [scan_test_iff]; exact hsel
    simp only [List.nil_append, scanItems, if_pos hs]
  | cons a rest ih =>
    have ha : ¬ ((a.ItemType = "file" && HasPrefix a.Name pfx) = true) := by
      rw [scan_test_iff]; exact hpre a (List.mem_cons_self _ _)
    have hrest := ih (fun x hx => hpre x (List.mem_cons_of_mem _ hx))
    show scanItems pfx (a :: (rest ++ sel :: post)) = (sel.Path, sel.Name)
    simp only [scanItems, if_neg ha, hrest]

/-- Every listing either has no item passing the test or splits at the first one. -/
theorem listing_split (pfx : String) (items : List ResourceItem) :
    (∀ x ∈ items, ¬ (x.ItemType = "file" ∧ pfx.data <+: x.Name.data)) ∨
    ∃ pre sel post, items = pre ++ sel :: post ∧
      (∀ x ∈ pre, ¬ (x.ItemType = "file" ∧ pfx.data <+: x.Name.data)) ∧
      (sel.ItemType = "file" ∧ pfx.data <+: sel.Name.data) := by
  induction items with
  | nil => exact Or.inl (fun x hx => absurd hx (List.not_mem_nil x))
  | cons a rest ih =>
    by_cases ha : a.ItemType = "file" ∧ pfx.data <+: a.Name.data
    · right
      exact ⟨[], a, rest, rfl, fun x hx => absurd hx (List.not_mem_nil x), ha⟩
    · rcases ih with hnone | ⟨pre, sel, post, hsplit, hpre, hsel⟩
      · left
        intro x hx
        rcases List.mem_cons.mp hx with rfl | hx
        · exact ha
        · exact hnone x hx
      · right
        refine ⟨a :: pre, sel, post, by rw [hsplit]; rfl, ?_, hsel⟩
        intro x hx
        rcases List.mem_cons.mp hx with rfl | hx
        · exact ha
        · exact hpre x hx

/-- C1: for every listing and prefix, either no item is a file whose name starts with the
prefix (and the loop selects nothing), or the listing splits as `pre ++ sel :: post` where
`sel` is a file whose name starts with the prefix, no item of `pre` is, and the loop
selects the path and name of `sel`, also when `post` is replaced by any other items. -/
theorem downloadNewest_selects_first_match (pfx : String) (items : List ResourceItem) :
    ((∀ x ∈ items, ¬ (x.ItemType = "file" ∧ pfx.data <+: x.Name.data)) ∧
      scanItems pfx items = ("", "")) ∨
    ∃ pre sel post, items = pre ++ sel :: post ∧
      (∀ x ∈ pre, ¬ (x.ItemType = "file" ∧ pfx.data <+: x.Name.data)) ∧
      (sel.ItemType = "file" ∧ pfx.data <+: sel.Name.data) ∧
      scanItems pfx items = (sel.Path, sel.Name) ∧
      ∀ others, scanItems pfx (pre ++ sel :: others) = (sel.Path, sel.Name) := by
  rcases listing_split pfx items with hnone | ⟨pre, sel, post, hsplit, hpre, hsel⟩
  · exact Or.inl ⟨hnone, scanItems_no_match pfx items hnone⟩
  · refine Or.inr ⟨pre, sel, post, hsplit, hpre, hsel, ?_, ?_⟩
    · rw [hsplit]; exact scanItems_first_match pfx pre post sel hpre hsel
    · intro others; exact scanItems_first_match pfx pre others sel hpre hsel

/-- C2: in a listing sorted by creation time descending that holds a file whose name starts
with the prefix, the loop (which reads the listing in the order received) selects the first
such file, and no other such file of the listing was created later. -/
theorem downloadNewest_selects_newest (pfx : String) (items : List ResourceItem)
    (hsorted : items.Pairwise (fun a b => b.Created ≤ a.Created))
    (hmatch : ∃ x ∈ items, x.ItemType = "file" ∧ pfx.data <+: x.Name.data) :
    ∃ pre sel post, items = pre ++ sel :: post ∧
      (∀ x ∈ pre, ¬ (x.ItemType = "file" ∧ pfx.data <+: x.Name.data)) ∧
      (sel.ItemType = "file" ∧ pfx.data <+: sel.Name.data) ∧
      scanItems pfx items = (sel.Path, sel.Name) ∧
      ∀ x ∈ items, (x.ItemType = "file" ∧ pfx.data <+: x.Name.data) →
        x.Created ≤ sel.Created := by
  rcases listing_split pfx items with hnone | ⟨pre, sel, post, hsplit, hpre, hsel⟩
  · obtain ⟨x, hx, hxm⟩ := hmatch
    exact absurd hxm (hnone x hx)
  · refine ⟨pre, sel, post, hsplit, hpre, hsel, ?_, ?_⟩
    · rw [hsplit]; exact scanItems_first_match pfx pre post sel hpre hsel
    · intro x hx hxm
      rw [hsplit] at hx hsorted
      rcases List.mem_append.mp hx with hin | hin
      · exact absurd hxm (hpre x hin)
      · rcases List.mem_cons.mp hin with rfl | hin
        · exact le_refl _
        · have hp := (List.pairwise_append.mp hsorted).2.1
          exact (List.pairwise_cons.mp hp).1 x hin

/-- Witness for C2: on the example listing the hypotheses hold and the entry of 2 January
is selected. -/
theorem downloadNewest_selects_newest_witness :
    scanItems "backup_main" exampleListing =
      ("disk:/backup/backup_main-20240102_0000.7z", "backup_main-20240102_0000.7z") ∧
    ∃ pre sel post, exampleListing = pre ++ sel :: post ∧
      (∀ x ∈ pre, ¬ (x.ItemType = "file" ∧ "backup_main".data <+: x.Name.data)) ∧
      (sel.ItemType = "file" ∧ "backup_main".data <+: sel.Name.data) ∧
      scanItems "backup_main" exampleListing = (sel.Path, sel.Name) ∧
      ∀ x ∈ exampleListing, (x.ItemType = "file" ∧ "backup_main".data <+: x.Name.data) →
        x.Created ≤ sel.Created :=
  ⟨by decide,
    downloadNewest_selects_newest "backup_main" exampleListing (by decide)
      ⟨_, List.mem_cons_self _ _, by decide⟩⟩

/-! ## `downloadNewest`: the not-found exit -/

/-- The text of the not-found error contains the prefix. -/
theorem not_found_message_names_prefix (pfx : String) :
    pfx.data <:+: ("Файл '" ++ pfx ++ "' не найден").data :=
  ⟨"Файл '".data, "' не найден".data, by simp [String.data_append]⟩

/-- C3: when the listing is received (status 200, body decoded) and none of its items is a
file whose name starts with the prefix, `downloadNewest` ends in the fatal error
"Файл '<prefix>' не найден", whose text contains the prefix, and the run has requested no
download link, fetched no download address and created or written no local file. -/
theorem downloadNewest_not_found (w : World) (webhook token pfx remoteDir : String)
    (s : State) (items : List ResourceItem)
    (hlist : w.listing remoteDir = .ok (200, .ok items))
    (hnone : ∀ x ∈ items, ¬ (x.ItemType = "file" ∧ pfx.data <+: x.Name.data)) :
    (downloadNewest w webhook token pfx remoteDir s).1
        = .fatal ("Файл '" ++ pfx ++ "' не найден") ∧
    pfx.data <:+: ("Файл '" ++ pfx ++ "' не найден").data ∧
    ∀ e ∈ eventsSince s (downloadNewest w webhook token pfx remoteDir s).2,
      e.isDownloadLinkRequest = false ∧ e.isLocalDownload = false := by
  have hscan := scanItems_no_match pfx items hnone
  refine ⟨?_, not_found_message_names_prefix pfx, ?_⟩
  · simp [downloadNewest, hlist, hscan, fatalError]
  · by_cases hw : webhook = ""
    · simp [downloadNewest, hlist, hscan, fatalError, sendDiscord, State.emit, eventsSince, hw,
        Event.isDownloadLinkRequest, Event.isLocalDownload]
    · simp [downloadNewest, hlist, hscan, fatalError, sendDiscord, State.emit, eventsSince, hw,
        Event.isDownloadLinkRequest, Event.isLocalDownload]

/-- Witness for C3: a listing whose only entry named like the prefix is a directory, in a
world that would serve every download. -/
theorem downloadNewest_not_found_witness :
    (∀ x ∈ dirOnlyListing, ¬ (x.ItemType = "file" ∧ "backup_main".data <+: x.Name.data)) ∧
    (downloadNewest (listingWorld dirOnlyListing) "" "t" "backup_main" "/backup/" State.start).1
        = .fatal ("Файл '" ++ "backup_main" ++ "' не найден") ∧
    "backup_main".data <:+: ("Файл '" ++ "backup_main" ++ "' не найден").data ∧
    ∀ e ∈ eventsSince State.start
        (downloadNewest (listingWorld dirOnlyListing) "" "t" "backup_main" "/backup/"
          State.start).2,
      e.isDownloadLinkRequest = false ∧ e.isLocalDownload = false :=
  ⟨by decide,
    downloadNewest_not_found (listingWorld dirOnlyListing) "" "t" "backup_main" "/backup/"
      State.start dirOnlyListing rfl (by decide)⟩

/-- When the first file whose name starts with the prefix has a non-empty path, the run
goes on to request a download link for that path. -/
theorem downloadNewest_requests_link (w : World) (webhook token pfx remoteDir : String)
    (s : State) (pre post : List ResourceItem) (sel : ResourceItem)
    (hlist : w.listing remoteDir = .ok (200, .ok (pre ++ sel :: post)))
    (hpre : ∀ x ∈ pre, ¬ (x.ItemType = "file" ∧ pfx.data <+: x.Name.data))
    (hsel : sel.ItemType = "file" ∧ pfx.data <+: sel.Name.data)
    (hpath : sel.Path ≠ "") :
    (downloadNewest w webhook token pfx remoteDir s).1
        ≠ .fatal ("Файл '" ++ pfx ++ "' не найден") ∧
    (eventsSince s (downloadNewest w webhook token pfx remoteDir s).2).take 2
        = [.getListing remoteDir token, .getDownloadLink sel.Path token] := by
  have hscan := scanItems_first_match pfx pre post sel hpre hsel
  constructor
  · simp only [downloadNewest, hlist, hscan, fatalError]
    rw [if_neg (by decide), if_neg hpath]
    repeat' split
    all_goals
      intro h
      first
        | cases h
        | exact absurd (congrArg String.data (Outcome.fatal.inj h))
            (by simp [String.data_append])
  · simp only [downloadNewest, hlist, hscan, fatalError, eventsSince, State.emit, sendDiscord]
    rw [if_neg (by decide), if_neg hpath]
    repeat' split
    all_goals simp [List.append_assoc]

/-- C10 at the failing input: the first matching file of the listing has an empty path (and
a second matching file has a proper one); the run ends in the not-found error and requests
no download link. -/
theorem downloadNewest_empty_path_not_found :
    (∃ x ∈ emptyPathListing, x.ItemType = "file" ∧ "backup_main".data <+: x.Name.data) ∧
    (downloadNewest (listingWorld emptyPathListing) "" "t" "backup_main" "/backup/"
        State.start).1 = .fatal "Файл 'backup_main' не найден" ∧
    (downloadNewest (listingWorld emptyPathListing) "" "t" "backup_main" "/backup/"
        State.start).2.trace = [.getListing "/backup/" "t"] := by
  refine ⟨⟨_, List.mem_cons_self _ _, by decide⟩, by decide, by decide⟩

/-! ## `uploadFile` -/

/-- C4: when the local file opens and the handshake call completes with some status,
`uploadFile` returns (without a fatal error or a panic) if and only if the handshake status
is 200 and the PUT returns 200 or 201. The PUT is the one the world answers: it is made to
the address of the decoded link, with the local file and its size, and its status is the
world's reply to that address. A 200 handshake whose body cannot be decoded or whose link
is no valid address, and a PUT that fails in transport, give neither a PUT status nor a
success; with a handshake status other than 200 no PUT is made at all. -/
theorem uploadFile_succeeds_iff (w : World) (webhook token localPath remoteDir : String)
    (s : State) (size status : Nat) (body : Except String LinkResponse)
    (hopen : w.openFile localPath = .ok size)
    (hhs : w.uploadLink (uploadDestPath remoteDir localPath) = .ok (status, body)) :
    ((uploadFile w webhook token localPath remoteDir s).1 = .returned () ↔
      (status = 200 ∧ ∃ link st, body = .ok link ∧ w.validURL link.Href = true ∧
        w.putFile link.Href = .ok st ∧ (st = 200 ∨ st = 201))) ∧
    ((uploadFile w webhook token localPath remoteDir s).1 = .returned () ↔
      (status = 200 ∧ ∃ href st,
        Event.putFile href localPath size
          ∈ eventsSince s (uploadFile w webhook token localPath remoteDir s).2 ∧
        w.putFile href = .ok st ∧
        Event.putStatus st
          ∈ eventsSince s (uploadFile w webhook token localPath remoteDir s).2 ∧
        (st = 200 ∨ st = 201))) ∧
    (status ≠ 200 → ∀ href lp n,
      Event.putFile href lp n
        ∉ eventsSince s (uploadFile w webhook token localPath remoteDir s).2) := by
  unfold uploadDestPath at hhs
  simp only [uploadFile, hopen, hhs]
  by_cases hst : status = 200
  · subst hst
    rw [if_neg (by decide)]
    cases body with
    | error err =>
      by_cases hw : webhook = "" <;>
        simp [fatalError, sendDiscord, State.emit, eventsSince, hw]
    | ok link =>
      by_cases hv : w.validURL link.Href = true
      · cases hp : w.putFile link.Href with
        | error err =>
          by_cases hw : webhook = "" <;>
            simp [hv, hp, fatalError, sendDiscord, State.emit, eventsSince, hw]
        | ok st =>
          by_cases h1 : st = 201
          · subst h1
            simp [hv, hp, State.emit, eventsSince]
          · by_cases h0 : st = 200
            · subst h0
              simp [hv, hp, State.emit, eventsSince]
            · by_cases hw : webhook = "" <;>
                simp [hv, hp, fatalError, sendDiscord, State.emit, eventsSince, hw, h0, h1]
      · simp [hv, State.emit, eventsSince]
  · rw [if_pos hst]
    by_cases hw : webhook = "" <;>
      simp [fatalError, sendDiscord, State.emit, eventsSince, hw, hst]

/-- Witness for C4: handshake 200 and PUT 201 in a world where the file opens; the upload
returns, and its effects are the handshake, its status, the PUT and its status. -/
theorem uploadFile_succeeds_iff_witness :
    (uploadFile (uploadWorld 200 201) "" "t" "/tmp/a.txt" "/d/" State.start)
      = (.returned (),
          { trace := [.getUploadLink "/d/a.txt" "t", .uploadLinkStatus 200,
              .putFile "https://up.example/u" "/tmp/a.txt" 5, .putStatus 201],
            dirs := [] }) ∧
    (((uploadFile (uploadWorld 200 201) "" "t" "/tmp/a.txt" "/d/" State.start).1
        = .returned () ↔
      (200 = 200 ∧ ∃ link st, (Except.ok { Href := "https://up.example/u" } :
          Except String LinkResponse) = .ok link ∧
        (uploadWorld 200 201).validURL link.Href = true ∧
        (uploadWorld 200 201).putFile link.Href = .ok st ∧ (st = 200 ∨ st = 201))) ∧
    ((uploadFile (uploadWorld 200 201) "" "t" "/tmp/a.txt" "/d/" State.start).1
        = .returned () ↔
      (200 = 200 ∧ ∃ href st,
        Event.putFile href "/tmp/a.txt" 5
          ∈ eventsSince State.start
            (uploadFile (uploadWorld 200 201) "" "t" "/tmp/a.txt" "/d/" State.start).2 ∧
        (uploadWorld 200 201).putFile href = .ok st ∧
        Event.putStatus st
          ∈ eventsSince State.start
            (uploadFile (uploadWorld 200 201) "" "t" "/tmp/a.txt" "/d/" State.start).2 ∧
        (st = 200 ∨ st = 201))) ∧
    (200 ≠ 200 → ∀ href lp n,
      Event.putFile href lp n
        ∉ eventsSince State.start
          (uploadFile (uploadWorld 200 201) "" "t" "/tmp/a.txt" "/d/" State.start).2)) :=
  ⟨by decide,
    uploadFile_succeeds_iff (uploadWorld 200 201) "" "t" "/tmp/a.txt" "/d/" State.start 5 200
      (.ok { Href := "https://up.example/u" }) rfl rfl⟩

/-- The outcome of an upload follows the world's reply to the PUT: in the worlds with
handshake 200, the replies 200 and 201 give a return and the reply 500 a fatal error; a
handshake 500 gives a fatal error without any PUT. -/
theorem uploadFile_outcomes :
    (uploadFile (uploadWorld 200 200) "" "t" "/tmp/a.txt" "/d/" State.start).1
        = .returned () ∧
    (uploadFile (uploadWorld 200 201) "" "t" "/tmp/a.txt" "/d/" State.start).1
        = .returned () ∧
    (uploadFile (uploadWorld 200 500) "" "t" "/tmp/a.txt" "/d/" State.start).1
        = .fatal "Файл не принят, код: 500" ∧
    (uploadFile (uploadWorld 500 201) "" "t" "/tmp/a.txt" "/d/" State.start)
        = (.fatal "Ошибка получения URL загрузки (Code: 500) для a.txt",
            { trace := [.getUploadLink "/d/a.txt" "t", .uploadLinkStatus 500], dirs := [] }) := by
  refine ⟨by decide, by decide, by decide, by decide⟩

/-- C8 at the failing input: handshake 200 and PUT 500 for the file `/tmp/a.txt`. The fatal
message is "Файл не принят, код: 500", which contains the status code and does not contain
the file name `a.txt`; the error of the handshake status in the same function, for the
same file, names both the code and the file. -/
theorem uploadFile_put_message_lacks_file_name :
    (uploadFile (uploadWorld 200 500) "" "t" "/tmp/a.txt" "/d/" State.start).1
        = .fatal "Файл не принят, код: 500" ∧
    filepath.Base "/tmp/a.txt" = "a.txt" ∧
    (toString (500 : Nat)).data <:+: "Файл не принят, код: 500".data ∧
    ¬ ((filepath.Base "/tmp/a.txt").data <:+: "Файл не принят, код: 500".data) ∧
    (uploadFile (uploadWorld 500 201) "" "t" "/tmp/a.txt" "/d/" State.start).1
        = .fatal "Ошибка получения URL загрузки (Code: 500) для a.txt" ∧
    (toString (500 : Nat)).data
      <:+: "Ошибка получения URL загрузки (Code: 500) для a.txt".data ∧
    (filepath.Base "/tmp/a.txt").data
      <:+: "Ошибка получения URL загрузки (Code: 500) для a.txt".data := by
  refine ⟨by decide, by decide, by decide, by decide, by decide, by decide, by decide⟩

/-- When the handshake succeeded (status 200, link decoded and usable) and the PUT returns
a status other than 200 and 201, `uploadFile` ends in the fatal error
"Файл не принят, код: <status>", whose text contains the returned status code. -/
theorem uploadFile_put_rejected (w : World) (webhook token localPath remoteDir : String)
    (s : State) (size st : Nat) (link : LinkResponse)
    (hopen : w.openFile localPath = .ok size)
    (hhs : w.uploadLink (uploadDestPath remoteDir localPath) = .ok (200, .ok link))
    (hvalid : w.validURL link.Href = true)
    (hput : w.putFile link.Href = .ok st)
    (hst : st ≠ 200 ∧ st ≠ 201) :
    (uploadFile w webhook token localPath remoteDir s).1
        = .fatal ("Файл не принят, код: " ++ toString st) ∧
    (toString st).data <:+: ("Файл не принят, код: " ++ toString st).data := by
  unfold uploadDestPath at hhs
  refine ⟨?_, ⟨"Файл не принят, код: ".data, [], by simp [String.data_append]⟩⟩
  simp [uploadFile, hopen, hhs, hvalid, hput, hst.1, hst.2, fatalError]

/-- When the handshake returns a status other than 200, `uploadFile` ends in a fatal error
whose text contains both the status code and the base name of the file. -/
theorem uploadFile_handshake_rejected (w : World)
    (webhook token localPath remoteDir : String) (s : State) (size status : Nat)
    (body : Except String LinkResponse)
    (hopen : w.openFile localPath = .ok size)
    (hhs : w.uploadLink (uploadDestPath remoteDir localPath) = .ok (status, body))
    (hst : status ≠ 200) :
    (uploadFile w webhook token localPath remoteDir s).1
        = .fatal ("Ошибка получения URL загрузки (Code: " ++ toString status ++ ") для "
            ++ filepath.Base localPath) ∧
    (toString status).data
      <:+: ("Ошибка получения URL загрузки (Code: " ++ toString status ++ ") для "
            ++ filepath.Base localPath).data ∧
    (filepath.Base localPath).data
      <:+: ("Ошибка получения URL загрузки (Code: " ++ toString status ++ ") для "
            ++ filepath.Base localPath).data := by
  unfold uploadDestPath at hhs
  refine ⟨?_, ⟨"Ошибка получения URL загрузки (Code: ".data,
      ") для ".data ++ (filepath.Base localPath).data, by simp [String.data_append]⟩,
    ⟨"Ошибка получения URL загрузки (Code: ".data ++ (toString status).data ++ ") для ".data,
      [], by simp [String.data_append]⟩⟩
  simp [uploadFile, hopen, hhs, hst, fatalError]

/-- The first effect of an upload whose file opens is the handshake request for the
destination path `filepath.Join(remoteDir, filepath.Base(localPath))`. -/
theorem uploadFile_first_effect (w : World) (webhook token localPath remoteDir : String)
    (s : State) (size : Nat) (hopen : w.openFile localPath = .ok size) :
    (eventsSince s (uploadFile w webhook token localPath remoteDir s).2).head?
      = some (.getUploadLink (uploadDestPath remoteDir localPath) token) := by
  simp only [uploadFile, hopen, uploadDestPath, fatalError, sendDiscord, eventsSince, State.emit]
  repeat' split
  all_goals simp [List.append_assoc]

/-- Joining a directory `/e1/.../ek/` (trailing slash; the root for `k = 0`) with an
ordinary base name is plain concatenation. -/
theorem uploadDestPath_trailing_slash (segs : List String) (localPath : String)
    (hsegs : ∀ e ∈ segs, plainElement e.data)
    (hbase : plainElement (filepath.Base localPath).data) :
    uploadDestPath (absDir segs ++ "/") localPath
      = (absDir segs ++ "/") ++ filepath.Base localPath := by
  apply String.ext
  have h := joinChars_dir_name (segs.map String.data) (filepath.Base localPath).data ['/']
    (by simpa using hsegs) hbase (Or.inr rfl) (by simp)
  simpa [uploadDestPath, filepath.Join, absDir, String.data_append] using h

/-- Joining a directory `/e1/.../ek` (no trailing slash, `k > 0`) with an ordinary base name
inserts a slash. -/
theorem uploadDestPath_no_trailing_slash (segs : List String) (localPath : String)
    (hsegs : ∀ e ∈ segs, plainElement e.data)
    (hbase : plainElement (filepath.Base localPath).data) (hne : segs ≠ []) :
    uploadDestPath (absDir segs) localPath
      = absDir segs ++ "/" ++ filepath.Base localPath := by
  apply String.ext
  have hne2 : absDirChars (segs.map String.data) ++ [] ≠ [] := by
    cases segs with
    | nil => exact absurd rfl hne
    | cons e rest => simp [absDirChars]
  have h := joinChars_dir_name (segs.map String.data) (filepath.Base localPath).data []
    (by simpa using hsegs) hbase (Or.inl rfl) hne2
  simpa [uploadDestPath, filepath.Join, absDir, String.data_append] using h

/-- C7 as stated fails: for the remote directory `/d` and the local file `/tmp/x.txt` the
handshake asks for `/d/x.txt`, while `remoteDir + basename` is `/dx.txt`. -/
theorem uploadFile_dest_path_not_concat :
    (eventsSince State.start
        (uploadFile (uploadWorld 200 201) "" "t" "/tmp/x.txt" "/d" State.start).2).head?
      = some (.getUploadLink "/d/x.txt" "t") ∧
    "/d" ++ filepath.Base "/tmp/x.txt" = "/dx.txt" ∧
    uploadDestPath "/d" "/tmp/x.txt" ≠ "/d" ++ filepath.Base "/tmp/x.txt" := by
  refine ⟨by decide, by decide, by decide⟩

/-- C7, amended: when the local file opens and its base name is an ordinary name (not `.`,
`..` or `/`), and the remote directory is `/e1/.../ek` made of ordinary elements, the path
of the handshake request is `filepath.Join(remoteDir, basename)`: with a trailing slash on
the directory (the root `/` for `k = 0`) it is `remoteDir + basename`, and without one
(`k > 0`) it is `remoteDir + "/" + basename`. -/
theorem uploadFile_dest_path (w : World) (webhook token localPath : String) (s : State)
    (size : Nat) (segs : List String)
    (hopen : w.openFile localPath = .ok size)
    (hsegs : ∀ e ∈ segs, plainElement e.data)
    (hbase : filepath.Base localPath ≠ "." ∧ filepath.Base localPath ≠ ".." ∧
      filepath.Base localPath ≠ "/") :
    (eventsSince s (uploadFile w webhook token localPath (absDir segs ++ "/") s).2).head?
      = some (.getUploadLink ((absDir segs ++ "/") ++ filepath.Base localPath) token) ∧
    (segs ≠ [] →
      (eventsSince s (uploadFile w webhook token localPath (absDir segs) s).2).head?
        = some (.getUploadLink (absDir segs ++ "/" ++ filepath.Base localPath) token)) := by
  have hplain : plainElement (filepath.Base localPath).data :=
    baseChars_plain localPath.data
      (fun h => hbase.1 (String.ext h)) (fun h => hbase.2.1 (String.ext h))
      (fun h => hbase.2.2 (String.ext h))
  constructor
  · rw [uploadFile_first_effect w webhook token localPath _ s size hopen,
      uploadDestPath_trailing_slash segs localPath hsegs hplain]
  · intro hne
    rw [uploadFile_first_effect w webhook token localPath _ s size hopen,
      uploadDestPath_no_trailing_slash segs localPath hsegs hplain hne]

/-- Witness for C7 amended: the directories `/d/` and `/d` and the file `/tmp/x.txt`. -/
theorem uploadFile_dest_path_witness :
    (eventsSince State.start
        (uploadFile (uploadWorld 200 201) "" "t" "/tmp/x.txt" (absDir ["d"] ++ "/")
          State.start).2).head?
      = some (.getUploadLink ((absDir ["d"] ++ "/") ++ filepath.Base "/tmp/x.txt") "t") ∧
    (["d"] ≠ [] →
      (eventsSince State.start
          (uploadFile (uploadWorld 200 201) "" "t" "/tmp/x.txt" (absDir ["d"])
            State.start).2).head?
        = some (.getUploadLink (absDir ["d"] ++ "/" ++ filepath.Base "/tmp/x.txt") "t")) :=
  uploadFile_dest_path (uploadWorld 200 201) "" "t" "/tmp/x.txt" State.start 5 ["d"] rfl
    (by decide) (by decide)

/-! ## Notifications -/

theorem quietSince_refl (s : State) : quietSince s s := by
  simp [quietSince, eventsSince]

theorem quietSince_trans {s t u : State} (h1 : quietSince s t) (h2 : quietSince t u) :
    quietSince s u := by
  obtain ⟨⟨l1, hl1⟩, hq1⟩ := h1
  obtain ⟨⟨l2, hl2⟩, hq2⟩ := h2
  have e1 : eventsSince s t = l1 := by simp [eventsSince, ← hl1]
  have e2 : eventsSince t u = l2 := by simp [eventsSince, ← hl2]
  have e3 : eventsSince s u = l1 ++ l2 := by
    simp [eventsSince, ← hl2, ← hl1, List.append_assoc]
  refine ⟨⟨l1 ++ l2, by rw [← hl2, ← hl1, List.append_assoc]⟩, ?_⟩
  intro e he
  rw [e3] at he
  rcases List.mem_append.mp he with h | h
  · exact hq1 e (e1 ▸ h)
  · exact hq2 e (e2 ▸ h)

theorem quietSince_emit (s : State) (e : Event) (h : e.isDiscordPost = false) :
    quietSince s (s.emit e) := by
  simp [quietSince, eventsSince, State.emit, h]

theorem sendDiscord_unset (message : String) (s : State) : sendDiscord "" message s = s := by
  simp [sendDiscord]

theorem uploadFile_quiet (w : World) (token localPath remoteDir : String) (s : State) :
    quietSince s (uploadFile w "" token localPath remoteDir s).2 := by
  simp only [uploadFile, fatalError, sendDiscord_unset]
  repeat' split
  all_goals
    simp [quietSince, eventsSince, State.emit, List.append_assoc, Event.isDiscordPost]

theorem downloadNewest_quiet (w : World) (token pfx remoteDir : String) (s : State) :
    quietSince s (downloadNewest w "" token pfx remoteDir s).2 := by
  simp only [downloadNewest, fatalError, sendDiscord_unset]
  repeat' split
  all_goals
    simp [quietSince, eventsSince, State.emit, List.append_assoc, Event.isDiscordPost]

theorem andThen_quiet {α : Type} (s : State) (r : Outcome Unit × State)
    (next : State → Outcome α × State) (hr : quietSince s r.2)
    (hnext : ∀ t, quietSince t (next t).2) : quietSince s (andThen r next).2 := by
  obtain ⟨o, t⟩ := r
  cases o with
  | returned a => exact quietSince_trans hr (hnext t)
  | fatal msg => exact hr
  | panicked => exact hr

theorem runFullBackupBody_quiet (w : World) (token password : String) (s : State) :
    quietSince s (runFullBackupBody w "" token password s).2 := by
  simp only [runFullBackupBody, fatalError, sendDiscord_unset]
  repeat' split
  all_goals
    first
      | (apply quietSince_trans _ (andThen_quiet _ _ _ (uploadFile_quiet w token _ _ _)
          (fun t => andThen_quiet t _ _ (uploadFile_quiet w token _ _ t)
            (fun u => quietSince_refl u)))
         simp [quietSince, eventsSince, State.emit, List.append_assoc, Event.isDiscordPost])
      | simp [quietSince, eventsSince, State.emit, List.append_assoc, Event.isDiscordPost]

theorem withDefer_quiet {α : Type} (s : State) (path : String)
    (body : State → Outcome α × State) (hbody : quietSince s (body s).2) :
    quietSince s (withDefer (fun t => t.rmdir path) body s).2 := by
  have hrm : ∀ t : State, quietSince t (t.rmdir path) := by
    intro t
    simp [quietSince, eventsSince, State.rmdir, Event.isDiscordPost]
  unfold withDefer
  split
  · rename_i a t heq
    rw [heq] at hbody
    exact quietSince_trans hbody (hrm t)
  · rename_i t heq
    rw [heq] at hbody
    exact quietSince_trans hbody (hrm t)
  · rename_i msg t heq
    rw [heq] at hbody
    exact hbody

theorem runFullBackup_quiet (w : World) (token password : String) (s : State) :
    quietSince s (runFullBackup w "" token password s).2 := by
  simp only [runFullBackup, fatalError, sendDiscord_unset]
  split
  · exact quietSince_emit s _ rfl
  · split
    all_goals
      apply quietSince_trans _ (withDefer_quiet _ _ _ (runFullBackupBody_quiet w token password _))
      simp [quietSince, eventsSince, State.emit, State.mkdir, Event.isDiscordPost]

theorem main_quiet (w : World) (a : Args) (s : State) (h : a.webhook = "") :
    quietSince s (main w a s).2 := by
  simp only [main, h, fatalError, sendDiscord_unset]
  repeat' split
  all_goals
    first
      | exact quietSince_refl s
      | exact uploadFile_quiet w _ _ _ s
      | exact downloadNewest_quiet w _ _ _ s
      | exact runFullBackup_quiet w _ _ s

/-- C6: with the webhook endpoint empty, `sendDiscord` leaves the state as it is for every
message (no POST), `fatalError` adds no effect, and no effect of any run of `main` (upload,
download or backup mode, ending in success or in a fatal error) is a POST to the webhook;
the same holds for a direct run of `runFullBackup`. -/
theorem no_notification_without_webhook (w : World) (a : Args) (s : State)
    (h : a.webhook = "") :
    (∀ message t, sendDiscord a.webhook message t = t) ∧
    (∀ msg t, (fatalError a.webhook msg t : Outcome Unit × State).2 = t) ∧
    (∀ e ∈ eventsSince s (main w a s).2, e.isDiscordPost = false) ∧
    (∀ e ∈ eventsSince s (runFullBackup w a.webhook a.token a.password s).2,
      e.isDiscordPost = false) := by
  refine ⟨?_, ?_, (main_quiet w a s h).2, ?_⟩
  · intro message t; rw [h]; exact sendDiscord_unset message t
  · intro msg t; rw [h]; simp [fatalError, sendDiscord_unset]
  · rw [h]; exact (runFullBackup_quiet w a.token a.password s).2

/-- Witness for C6: a complete backup run without webhook in a world where every step
succeeds; the run returns and its effects hold no POST. -/
theorem no_notification_without_webhook_witness :
    (main backupWorld
        { mode := "backup", token := "t", password := "pw", file := "", pfx := "",
          remote := "", webhook := "" } State.start).1 = .returned () ∧
    ((∀ message t, sendDiscord "" message t = t) ∧
    (∀ msg t, (fatalError "" msg t : Outcome Unit × State).2 = t) ∧
    (∀ e ∈ eventsSince State.start (main backupWorld
        { mode := "backup", token := "t", password := "pw", file := "", pfx := "",
          remote := "", webhook := "" } State.start).2, e.isDiscordPost = false) ∧
    (∀ e ∈ eventsSince State.start (runFullBackup backupWorld "" "t" "pw" State.start).2,
      e.isDiscordPost = false)) :=
  ⟨by decide,
    no_notification_without_webhook backupWorld
      { mode := "backup", token := "t", password := "pw", file := "", pfx := "",
        remote := "", webhook := "" } State.start rfl⟩

/-! ## The scratch directory of `runFullBackup` -/

theorem mem_dirs_mkdir (s : State) (path : String) : path ∈ (s.mkdir path).dirs := by
  unfold State.mkdir
  by_cases h : path ∈ s.dirs
  · simp [h]
  · simp [h]

theorem sendDiscord_dirs (webhook message : String) (s : State) :
    (sendDiscord webhook message s).dirs = s.dirs := by
  unfold sendDiscord
  split <;> rfl

theorem uploadFile_dirs (w : World) (webhook token localPath remoteDir : String) (s : State) :
    (uploadFile w webhook token localPath remoteDir s).2.dirs = s.dirs := by
  simp only [uploadFile, fatalError]
  repeat' split
  all_goals simp [sendDiscord_dirs, State.emit]

theorem andThen_dirs {α : Type} (s : State) (r : Outcome Unit × State)
    (next : State → Outcome α × State) (hr : r.2.dirs = s.dirs)
    (hnext : ∀ t, (next t).2.dirs = t.dirs) : (andThen r next).2.dirs = s.dirs := by
  obtain ⟨o, t⟩ := r
  cases o with
  | returned a => exact (hnext t).trans hr
  | fatal msg => exact hr
  | panicked => exact hr

/-- The part of `runFullBackup` after the `defer` creates and removes no directory. -/
theorem runFullBackupBody_dirs (w : World) (webhook token password : String) (s : State) :
    (runFullBackupBody w webhook token password s).2.dirs = s.dirs := by
  simp only [runFullBackupBody, fatalError]
  repeat' split
  all_goals
    first
      | (refine (andThen_dirs _ _ _ (uploadFile_dirs w webhook token _ _ _)
          (fun t => andThen_dirs t _ _ (uploadFile_dirs w webhook token _ _ t)
            (fun u => sendDiscord_dirs _ _ u))).trans ?_
         simp [State.emit])
      | simp [sendDiscord_dirs, State.emit]

/-- A run of `runFullBackup` that returns has removed the scratch directory. -/
theorem runFullBackup_returned_removes_scratch (w : World) (webhook token password : String)
    (s : State) (h : (runFullBackup w webhook token password s).1 = .returned ()) :
    tmpDir w ∉ (runFullBackup w webhook token password s).2.dirs := by
  simp only [runFullBackup, fatalError] at h ⊢
  split at h
  · cases h
  · simp only [withDefer] at h ⊢
    split at h
    · rename_i a t heq
      simp [heq, State.rmdir]
    · cases h
    · cases h

/-- A run of `runFullBackup` that made both directories and then ended in a fatal error has
left the scratch directory in place. -/
theorem runFullBackup_fatal_keeps_scratch (w : World) (webhook token password msg : String)
    (s : State) (h1 : w.mkdirAll (LocalBackupDir w) = .ok ())
    (h2 : w.mkdirAll (tmpDir w) = .ok ())
    (h : (runFullBackup w webhook token password s).1 = .fatal msg) :
    tmpDir w ∈ (runFullBackup w webhook token password s).2.dirs := by
  simp only [runFullBackup, h1, h2, withDefer] at h ⊢
  split at h
  · cases h
  · cases h
  · rename_i m t heq
    have hd := runFullBackupBody_dirs w webhook token password
      (((s.emit (.mkdirAll (LocalBackupDir w))).mkdir (LocalBackupDir w)).emit
        (.mkdirAll (tmpDir w)) |>.mkdir (tmpDir w))
    rw [heq] at hd
    have hd2 : t.dirs = _ := hd
    rw [hd2]
    exact mem_dirs_mkdir _ _

/-- C5 at the failing input: both directories are made, the first run of `7z` fails. The run
ends in the fatal error of the main archive, the deferred `os.RemoveAll` is never performed
and the scratch directory `/tmp/backup_work` still exists. -/
theorem runFullBackup_fatal_leaves_scratch :
    (runFullBackup archiveFailWorld "" "t" "pw" State.start).1
        = .fatal "Ошибка создания Main архива: exit status 2" ∧
    tmpDir archiveFailWorld = "/tmp/backup_work" ∧
    "/tmp/backup_work" ∈ (runFullBackup archiveFailWorld "" "t" "pw" State.start).2.dirs ∧
    Event.removeAll "/tmp/backup_work"
      ∉ (runFullBackup archiveFailWorld "" "t" "pw" State.start).2.trace := by
  refine ⟨by decide, by decide, by decide, by decide⟩

/-! ## Archive names -/

/-- C9: for every timestamp string, the two archive names of a run are
`backup_main-<timestamp>.7z` and `backup_silly-<timestamp>.7z`: they have the form
`backup_<kind>-<timestamp>.<ext>`, differ from each other, and both contain the timestamp. -/
theorem archive_names_distinct (dateStr : String) :
    mainArchiveName dateStr = "backup_" ++ "main" ++ "-" ++ dateStr ++ "." ++ "7z" ∧
    sillyArchiveName dateStr = "backup_" ++ "silly" ++ "-" ++ dateStr ++ "." ++ "7z" ∧
    mainArchiveName dateStr ≠ sillyArchiveName dateStr ∧
    dateStr.data <:+: (mainArchiveName dateStr).data ∧
    dateStr.data <:+: (sillyArchiveName dateStr).data := by
  refine ⟨?_, ?_, ?_, ?_, ?_⟩
  · apply String.ext; simp [mainArchiveName, String.data_append]
  · apply String.ext; simp [sillyArchiveName, String.data_append]
  · intro h
    have := congrArg String.data h
    simp [mainArchiveName, sillyArchiveName, String.data_append] at this
  · exact ⟨"backup_main-".data, ".7z".data, by simp [mainArchiveName, String.data_append]⟩
  · exact ⟨"backup_silly-".data, ".7z".data, by simp [sillyArchiveName, String.data_append]⟩

end YaDisk
